import Mathlib

/-!
Verification of the TUSCAN candidate-scanning and scoring pipeline
(`TUSCAN model/TUSCAN.py`) against its natural-language specification.

Sequences are modelled as `List Char` (Python strings), numeric feature
values as `ℚ` (Python ints/floats; all values reached here are exact),
genomic coordinates as `ℤ`.
-/

set_option maxHeartbeats 1000000

namespace Tuscan

/-- Python `round(x, 2)`: round to two decimal places.  Mathlib `round`
rounds half up while Python rounds half to even, but for every value this
program produces (`k / 30 * 100` for an integer `k`) the fractional part of
`x * 100` lies in `{0, 1/3, 2/3}`, so no tie ever arises and the two
conventions agree. -/
def round2 (x : ℚ) : ℚ := (round (x * 100) : ℤ) / 100

/-- `gc(seq)` from TUSCAN.py line 149: GC percentage of a sequence,
`round((seq.count('C') + seq.count('G')) / len(seq) * 100, 2)`. -/
def gc (seq : List Char) : ℚ :=
  round2 (((seq.count 'C' : ℚ) + (seq.count 'G' : ℚ)) / (seq.length : ℚ) * 100)

/-- The `complement` dict of `reverse_complement` (TUSCAN.py line 154);
`none` models the `KeyError` raised on a base outside `{A,C,G,T}`. -/
def complement (base : Char) : Option Char :=
  if base = 'A' then some 'T'
  else if base = 'C' then some 'G'
  else if base = 'G' then some 'C'
  else if base = 'T' then some 'A'
  else none

/-- Complement each character in order, failing if any lookup fails
(the generator expression `complement[base] for base in ...`). -/
def mapComplement : List Char → Option (List Char)
  | [] => some []
  | c :: cs =>
    match complement c, mapComplement cs with
    | some c', some cs' => some (c' :: cs')
    | _, _ => none

/-- `reverse_complement(seq)` from TUSCAN.py lines 153-155 **as written**:
the body reads the module-global `sequence`, not the parameter `seq`
(`''.join(complement[base] for base in reversed(sequence))`).  The global
is passed explicitly as the first argument; the second argument is the
function's (unused) parameter. -/
def reverse_complement (sequence : List Char) (_seq : List Char) : Option (List Char) :=
  mapComplement sequence.reverse

/-- Modelled from the spec: the reverse complement of the *argument*, which
is what the function's name, signature and the spec describe.  This is what
`reverse_complement` computes at its single call site, where the argument
is the global `sequence`. -/
def revComplement (s : List Char) : Option (List Char) :=
  mapComplement s.reverse

/-- Total complement on `{A,C,G,T}` (identity elsewhere), used to state
facts about `revComplement` on valid sequences. -/
def complementChar (base : Char) : Char :=
  if base = 'A' then 'T'
  else if base = 'C' then 'G'
  else if base = 'G' then 'C'
  else if base = 'T' then 'A'
  else base

/-- Character class `[ACTG]` of the scanning regex. -/
def isACTG (c : Char) : Bool :=
  c = 'A' || c = 'C' || c = 'T' || c = 'G'

/-- `di_content` (TUSCAN.py lines 159-168) counts, for one dinucleotide,
the number of start positions at which it occurs in `seq`: the
`str.find(d, start)` loop visits every match position (overlapping
occurrences included) and increments `count` once per position. -/
def countDi (seq : List Char) (d : Char × Char) : ℕ :=
  match seq with
  | [] => 0
  | [_] => 0
  | a :: b :: rest => (if (a, b) = d then 1 else 0) + countDi (b :: rest) d

/-- `NucleotideLocation` namedtuple (TUSCAN.py line 28). -/
structure NucleotideLocation where
  nucleotide : Char
  location : ℕ
deriving DecidableEq

/-- `DinucleotideLocation` namedtuple (TUSCAN.py line 29). -/
structure DinucleotideLocation where
  dinucleotide : Char × Char
  location : ℕ
deriving DecidableEq

/-- TUSCAN.py lines 31-45. -/
def REGRESSION_NUCLEOTIDES_OF_INTEREST : List NucleotideLocation :=
  [⟨'T', 4⟩, ⟨'C', 7⟩, ⟨'C', 10⟩, ⟨'T', 17⟩, ⟨'C', 20⟩, ⟨'T', 20⟩,
   ⟨'G', 21⟩, ⟨'T', 21⟩, ⟨'G', 22⟩, ⟨'T', 22⟩, ⟨'C', 24⟩, ⟨'G', 24⟩, ⟨'T', 24⟩]

/-- TUSCAN.py lines 47-60. -/
def CLASSIFICATION_NUCLEOTIDES_OF_INTEREST : List NucleotideLocation :=
  [⟨'G', 5⟩, ⟨'T', 11⟩, ⟨'C', 12⟩, ⟨'A', 16⟩, ⟨'T', 17⟩, ⟨'C', 20⟩,
   ⟨'T', 20⟩, ⟨'T', 22⟩, ⟨'T', 23⟩, ⟨'C', 24⟩, ⟨'G', 24⟩, ⟨'T', 24⟩]

/-- TUSCAN.py lines 62-101. -/
def REGRESSION_DINUCLEOTIDES_OF_INTEREST : List DinucleotideLocation :=
  [⟨('A','C'), 1⟩, ⟨('A','C'), 2⟩, ⟨('C','A'), 3⟩, ⟨('T','T'), 4⟩,
   ⟨('G','A'), 5⟩, ⟨('C','T'), 6⟩, ⟨('A','C'), 8⟩, ⟨('C','C'), 8⟩,
   ⟨('G','A'), 8⟩, ⟨('T','T'), 9⟩, ⟨('A','T'), 10⟩, ⟨('C','G'), 11⟩,
   ⟨('G','A'), 12⟩, ⟨('C','C'), 14⟩, ⟨('G','A'), 15⟩, ⟨('C','C'), 16⟩,
   ⟨('G','G'), 16⟩, ⟨('T','T'), 16⟩, ⟨('C','T'), 17⟩, ⟨('A','A'), 18⟩,
   ⟨('G','G'), 19⟩, ⟨('A','T'), 20⟩, ⟨('C','C'), 20⟩, ⟨('C','G'), 20⟩,
   ⟨('C','T'), 20⟩, ⟨('G','G'), 20⟩, ⟨('T','A'), 21⟩, ⟨('T','G'), 21⟩,
   ⟨('C','C'), 22⟩, ⟨('G','A'), 22⟩, ⟨('T','A'), 22⟩, ⟨('C','G'), 23⟩,
   ⟨('G','A'), 23⟩, ⟨('G','G'), 23⟩, ⟨('T','G'), 23⟩, ⟨('G','A'), 24⟩,
   ⟨('G','T'), 24⟩, ⟨('T','C'), 24⟩]

/-- TUSCAN.py lines 103-117. -/
def CLASSIFICATION_DINUCLEOTIDES_OF_INTEREST : List DinucleotideLocation :=
  [⟨('C','G'), 11⟩, ⟨('G','A'), 15⟩, ⟨('T','T'), 16⟩, ⟨('C','C'), 20⟩,
   ⟨('T','A'), 22⟩, ⟨('C','G'), 23⟩, ⟨('T','C'), 23⟩, ⟨('T','G'), 23⟩,
   ⟨('C','C'), 24⟩, ⟨('G','A'), 24⟩, ⟨('G','C'), 24⟩, ⟨('G','T'), 24⟩,
   ⟨('T','C'), 24⟩]

/-- TUSCAN.py lines 119-136: all 16 dinucleotides in lexicographic order. -/
def CLASSIFICATION_DINUCLEOTIDES : List (Char × Char) :=
  [('A','A'), ('A','C'), ('A','G'), ('A','T'),
   ('C','A'), ('C','C'), ('C','G'), ('C','T'),
   ('G','A'), ('G','C'), ('G','G'), ('G','T'),
   ('T','A'), ('T','C'), ('T','G'), ('T','T')]

/-- TUSCAN.py lines 138-145. -/
def REGRESSION_DINUCLEOTIDES : List (Char × Char) :=
  [('C','A'), ('C','T'), ('G','C'), ('T','C'), ('T','G'), ('T','T')]

/-- One slot of `nucleotide` (TUSCAN.py lines 178-181):
1 if `seq[location-1] == nucleotide` else the default 0. -/
def nucleotideSlot (seq : List Char) (nl : NucleotideLocation) : ℚ :=
  if seq[nl.location - 1]? = some nl.nucleotide then 1 else 0

/-- One slot of `dinucleotide` (TUSCAN.py lines 185-190):
1 if `seq[location-1:location+1] == dinucleotide` else the default 0. -/
def dinucleotideSlot (seq : List Char) (dl : DinucleotideLocation) : ℚ :=
  if (seq.drop (dl.location - 1)).take 2 = [dl.dinucleotide.1, dl.dinucleotide.2]
  then 1 else 0

/-- `pam` (TUSCAN.py lines 172-174): 1 if `seq[24:28] == 'TGGT'` else 0. -/
def pamSlot (seq : List Char) : ℚ :=
  if (seq.drop 24).take 4 = ['T', 'G', 'G', 'T'] then 1 else 0

/-- `get_features(seq)` (TUSCAN.py lines 194-216).  The Python code
preallocates `[0]*63` (Regression) or `[0]*46` (Classification) and writes
disjoint blocks at fixed start indices (5, 11, 24, 62 for Regression;
5, 21, 33 for Classification); since the block lengths are 6, 13, 38, 1
and 16, 12, 13 respectively, the result is exactly this concatenation. -/
def get_features (is_regression : Bool) (seq : List Char) : List ℚ :=
  if is_regression then
    gc seq :: (seq.count 'A' : ℚ) :: (seq.count 'C' : ℚ) ::
      (seq.count 'G' : ℚ) :: (seq.count 'T' : ℚ) ::
      (REGRESSION_DINUCLEOTIDES.map fun d => (countDi seq d : ℚ)) ++
      REGRESSION_NUCLEOTIDES_OF_INTEREST.map (nucleotideSlot seq) ++
      REGRESSION_DINUCLEOTIDES_OF_INTEREST.map (dinucleotideSlot seq) ++
      [pamSlot seq]
  else
    gc seq :: (seq.count 'A' : ℚ) :: (seq.count 'C' : ℚ) ::
      (seq.count 'G' : ℚ) :: (seq.count 'T' : ℚ) ::
      (CLASSIFICATION_DINUCLEOTIDES.map fun d => (countDi seq d : ℚ)) ++
      CLASSIFICATION_NUCLEOTIDES_OF_INTEREST.map (nucleotideSlot seq) ++
      CLASSIFICATION_DINUCLEOTIDES_OF_INTEREST.map (dinucleotideSlot seq)

/-- The capture group of `guide_re = re.compile(r'(?=([ACTG]{25}GG[ACTG]{3}))')`
(TUSCAN.py line 323): 25 characters from `[ACTG]`, then `GG`, then 3
characters from `[ACTG]` — 30 characters in all. -/
def guideMatch (w : List Char) : Bool :=
  w.length = 30 && (w.take 25).all isACTG &&
    (w.drop 25).take 2 = ['G', 'G'] && (w.drop 27).all isACTG

/-- Attempt of the lookahead pattern at offset `i` of `s`; on success
returns the captured 30-character group `m.group(1)`. -/
def matchAt (s : List Char) (i : ℕ) : Option (List Char) :=
  let w := (s.drop i).take 30
  if guideMatch w then some w else none

/-- `guide_re.finditer(sequence)` (TUSCAN.py line 324): since the pattern is
a zero-width lookahead, `finditer` attempts it at every position and
consumes no text, yielding each `(m.start(), m.group(1))` in ascending
offset order, overlapping matches included. -/
def guide_matches (s : List Char) : List (ℕ × List Char) :=
  (List.range s.length).filterMap fun i => (matchAt s i).map fun w => (i, w)

/-- One output record `[chrom, sequence_start_pos, sequence_end_pos, strand,
sequence[4:-3]]` (TUSCAN.py line 244), before the score is appended. -/
structure Record where
  chrom : String
  startPos : ℤ
  endPos : ℤ
  strand : Char
  candidate : List Char
deriving DecidableEq

/-- Fixed per-pass inputs of `score_sequences`: the module globals `chrom`,
`start`, `end`, `is_regression`, and the loaded model `rf.predict`, treated
as an opaque scoring function. -/
structure ScoreConfig where
  predict : List (List ℚ) → List ℚ
  is_regression : Bool
  chrom : String
  start : ℤ
  endPos : ℤ

/-- The metadata record built for one match inside `score_sequences`
(TUSCAN.py lines 236-244).  `match_start` is `m.start()` on the scanned
strand; `sequence` is the 30-character window `m.group(1)`. -/
def candidateMeta (cfg : ScoreConfig) (is_reverse : Bool) (match_start : ℕ)
    (sequence : List Char) : Record :=
  if is_reverse then
    let e : ℤ := cfg.endPos - (match_start : ℤ) - 3 - 1
    let s : ℤ := e - 23 + 1
    ⟨cfg.chrom, s, e, '-', (sequence.take (sequence.length - 3)).drop 4⟩
  else
    let s : ℤ := cfg.start + (match_start : ℤ) + 3 + 2
    let e : ℤ := s + 23 - 1
    ⟨cfg.chrom, s, e, '+', (sequence.take (sequence.length - 3)).drop 4⟩

/-- An item of `matches_queue`: `(m.start(), m.group(1))`, or the sentinel
`(None, None)` modelled as `none`. -/
abbrev QItem : Type := Option (ℕ × List Char)

/-- An item of `output_queue`: a scored record `metadata + [score]`, or the
per-worker done marker `None` modelled as `none`. -/
abbrev OutItem : Type := Option (Record × ℚ)

/-- `output_sequences(sequences, metadata, output_queue)` (TUSCAN.py lines
219-222): one `rf.predict` call on the whole batch, then one scored record
per `zip(metadata, scores)` pair, in batch order. -/
def output_sequences (cfg : ScoreConfig) (sequences : List (List Char))
    (metadata : List Record) : List (Record × ℚ) :=
  metadata.zip (cfg.predict (sequences.map (get_features cfg.is_regression)))

/-- A worker's loop state: still running with its pending batch buffers
(`sequences`, `metadata`), or exited after consuming its sentinel. -/
inductive WStatus where
  | running (sequences : List (List Char)) (metadata : List Record)
  | done
deriving DecidableEq

/-- One iteration of the `score_sequences` loop body (TUSCAN.py lines
230-248) on a received queue item: returns the new worker state, the items
put on `output_queue`, and the batches passed to the model (via
`output_sequences`, one `rf.predict` call each) during this iteration. -/
def worker_recv (cfg : ScoreConfig) (is_reverse : Bool)
    (sequences : List (List Char)) (metadata : List Record) (item : QItem) :
    WStatus × List OutItem × List (List (List Char)) :=
  match item with
  | none =>
    (WStatus.done,
     (if sequences ≠ [] then (output_sequences cfg sequences metadata).map some else [])
       ++ [(none : OutItem)],
     if sequences ≠ [] then [sequences] else [])
  | some (match_start, sequence) =>
    let sequences' := sequences ++ [sequence]
    let metadata' := metadata ++ [candidateMeta cfg is_reverse match_start sequence]
    if sequences'.length ≥ 10000 then
      (WStatus.running [] [], (output_sequences cfg sequences' metadata').map some,
       [sequences'])
    else
      (WStatus.running sequences' metadata', [], [])

/-- `score_sequences` (TUSCAN.py lines 225-248) as a sequential run over
the finite list of queue items this worker receives, starting from the
given buffers.  The loop exits on its first sentinel; an empty stream with
no sentinel means the worker is still blocked in `matches_queue.get()`,
modelled as producing nothing further. -/
def score_sequences_run (cfg : ScoreConfig) (is_reverse : Bool) :
    List QItem → List (List Char) → List Record →
    List OutItem × List (List (List Char))
  | [], _, _ => ([], [])
  | item :: rest, sequences, metadata =>
    match worker_recv cfg is_reverse sequences metadata item with
    | (WStatus.done, outs, calls) => (outs, calls)
    | (WStatus.running s' m', outs, calls) =>
      let r := score_sequences_run cfg is_reverse rest s' m'
      (outs ++ r.1, calls ++ r.2)

/-- `fill_queue(matches, matches_queue)` (TUSCAN.py lines 251-255): the
exact sequence of items the producer puts on the queue — every match in
order, then one `(None, None)` sentinel per worker thread. -/
def fill_queue (matchList : List (ℕ × List Char)) (num_threads : ℕ) : List QItem :=
  matchList.map some ++ List.replicate num_threads (none : QItem)

/-- State of one strand pass (TUSCAN.py lines 339-351): the producer's
remaining items, the bounded `matches_queue` (front = next to dequeue),
the worker pool, the `output_queue`, and the collector's `num_done`. -/
structure PassState where
  prod : List QItem
  queue : List QItem
  workers : List WStatus
  outQ : List OutItem
  num_done : ℕ
deriving DecidableEq

/-- All states reachable in one scheduling step from `st`: the producer's
blocking `put` (enabled while `matches_queue` is below its bound
`num_threads * 2`, TUSCAN.py line 333), any running worker's `get` plus
loop body, and the collector's `get` (enabled while `num_done <
num_threads`, TUSCAN.py line 346). -/
def nextStates (cfg : ScoreConfig) (is_reverse : Bool) (st : PassState) :
    List PassState :=
  (match st.prod with
   | [] => []
   | item :: rest =>
     if st.queue.length < st.workers.length * 2 then
       [{ st with prod := rest, queue := st.queue ++ [item] }]
     else []) ++
  ((List.range st.workers.length).filterMap fun k =>
    match st.workers[k]?, st.queue with
    | some (WStatus.running s m), item :: qrest =>
      some ({ st with queue := qrest,
                      workers := st.workers.set k (worker_recv cfg is_reverse s m item).1,
                      outQ := st.outQ ++ (worker_recv cfg is_reverse s m item).2.1 })
    | _, _ => none) ++
  (if st.num_done < st.workers.length then
     match st.outQ with
     | [] => []
     | o :: orest =>
       [{ st with
            outQ := orest,
            num_done := st.num_done + (if o = (none : OutItem) then 1 else 0) }]
   else [])

/-- The scheduler picks any enabled step. -/
abbrev Step (cfg : ScoreConfig) (is_reverse : Bool) (s s' : PassState) : Prop :=
  s' ∈ nextStates cfg is_reverse s

/-- Initial state of a strand pass with `num_threads` workers: the producer
holds `fill_queue`'s item sequence, queues are empty, every worker runs
with empty buffers, nothing collected. -/
def initPass (matchList : List (ℕ × List Char)) (num_threads : ℕ) : PassState :=
  ⟨fill_queue matchList num_threads, [], List.replicate num_threads (WStatus.running [] []),
   [], 0⟩

/-- Buffered-batch size of a worker (0 once exited). -/
def bufLen : WStatus → ℕ
  | WStatus.running _ metadata => metadata.length
  | WStatus.done => 0

/-- Number of sentinel items in a list of queue items. -/
def sentinels (l : List QItem) : ℕ := l.countP fun x => decide (x = none)

/-- Number of done markers in a list of output items. -/
def markers (l : List OutItem) : ℕ := l.countP fun x => decide (x = none)

/-- Number of exited workers. -/
def doneCount (ws : List WStatus) : ℕ := ws.countP fun w => decide (w = WStatus.done)

/-- Termination measure of a strand pass: every scheduling step strictly
decreases it. -/
def measureP (st : PassState) : ℕ :=
  3 * st.prod.length + 2 * st.queue.length + (st.workers.map bufLen).sum + st.outQ.length

/-- Inductive invariant of a strand pass with `N` workers: the pool size is
fixed, every sentinel is either still undelivered or accounted for by an
exited worker, and every emitted done marker is either still in the results
channel or already counted by the collector. -/
def PassInv (N : ℕ) (st : PassState) : Prop :=
  st.workers.length = N ∧
  sentinels st.prod + sentinels st.queue + doneCount st.workers = N ∧
  markers st.outQ + st.num_done = doneCount st.workers

/-- The all-A candidate window: 25 `A`s, the `GG` anchor, 3 `A`s
(30 characters). -/
def wAllA : List Char := List.replicate 25 'A' ++ ['G', 'G'] ++ ['A', 'A', 'A']

/-- The all-T candidate window: 25 `T`s, the `GG` anchor, 3 `T`s. -/
def wAllT : List Char := List.replicate 25 'T' ++ ['G', 'G'] ++ ['T', 'T', 'T']

/-- An adversarial overlap sequence: a valid window at offset 0 and another
at offset 5 sharing 25 characters. -/
def sOverlap : List Char := wAllA ++ ['G', 'G', 'A', 'A', 'A']

/-- The window matched at offset 5 of `sOverlap`. -/
def wOv5 : List Char :=
  List.replicate 20 'A' ++ ['G', 'G', 'A', 'A', 'A', 'G', 'G', 'A', 'A', 'A']

/-- A concrete stand-in model: one zero score per input row. -/
def predict0 : List (List ℚ) → List ℚ := fun xs => xs.map fun _ => (0 : ℚ)

/-- A concrete scoring configuration for witnesses. -/
def cfg0 : ScoreConfig := ⟨predict0, true, "chr1", 0, 40⟩

/-- A concrete complete schedule of a one-worker pass over an empty
candidate stream: produce the sentinel, worker consumes it and emits its
done marker, collector counts it, then the pass is finished. -/
def c8Trace : ℕ → PassState
  | 0 => initPass [] 1
  | 1 => ⟨[], [none], [WStatus.running [] []], [], 0⟩
  | 2 => ⟨[], [], [WStatus.done], [(none : OutItem)], 0⟩
  | _ + 3 => ⟨[], [], [WStatus.done], [], 1⟩

/-! ### Supporting lemmas -/

lemma complement_eq_some (c : Char) (hc : isACTG c = true) :
    complement c = some (complementChar c) := by
  simp only [isACTG, Bool.or_eq_true, decide_eq_true_eq] at hc
  rcases hc with ((h | h) | h) | h <;> subst h <;> rfl

lemma isACTG_complementChar (c : Char) (hc : isACTG c = true) :
    isACTG (complementChar c) = true := by
  simp only [isACTG, Bool.or_eq_true, decide_eq_true_eq] at hc ⊢
  rcases hc with ((h | h) | h) | h <;> subst h <;> simp [complementChar]

lemma complementChar_involutive (c : Char) (hc : isACTG c = true) :
    complementChar (complementChar c) = c := by
  simp only [isACTG, Bool.or_eq_true, decide_eq_true_eq] at hc
  rcases hc with ((h | h) | h) | h <;> subst h <;> rfl

lemma mapComplement_eq_map (s : List Char) (h : ∀ c ∈ s, isACTG c = true) :
    mapComplement s = some (s.map complementChar) := by
  induction s with
  | nil => rfl
  | cons c cs ih =>
    have hc := complement_eq_some c (h c (by simp))
    have ih' := ih fun x hx => h x (by simp [hx])
    simp only [mapComplement, hc, ih', List.map_cons]

/-- The intended reverse complement (the spec's `reverse-complement`) is an
involution on sequences over `{A,C,G,T}`. -/
lemma revComplement_involutive (s : List Char) (h : ∀ c ∈ s, isACTG c = true) :
    (revComplement s).bind revComplement = some s := by
  have h1 : ∀ c ∈ s.reverse, isACTG c = true := fun c hc =>
    h c (List.mem_reverse.mp hc)
  have e1 : revComplement s = some (s.reverse.map complementChar) :=
    mapComplement_eq_map s.reverse h1
  have h2 : ∀ c ∈ (s.reverse.map complementChar).reverse, isACTG c = true := by
    intro c hc
    rw [List.mem_reverse, List.mem_map] at hc
    obtain ⟨a, ha, rfl⟩ := hc
    exact isACTG_complementChar a (h1 a ha)
  have e2 : revComplement (s.reverse.map complementChar) =
      some (((s.reverse.map complementChar).reverse).map complementChar) :=
    mapComplement_eq_map _ h2
  rw [e1, Option.some_bind, e2]
  congr 1
  rw [← List.map_reverse, List.reverse_reverse, List.map_map]
  have e3 : List.map (complementChar ∘ complementChar) s = List.map id s :=
    List.map_congr_left fun c hc => complementChar_involutive c (h c hc)
  rw [e3, List.map_id]

/-! ### Claim theorems -/

/-- C10: the result of `reverse_complement` does not depend on its `seq`
parameter — for a fixed module-global `sequence`, any two arguments give
the same result, namely the reverse complement of the global `sequence`. -/
theorem reverse_complement_ignores_argument (sequence s1 s2 : List Char) :
    reverse_complement sequence s1 = reverse_complement sequence s2 ∧
    reverse_complement sequence s1 = revComplement sequence :=
  ⟨rfl, rfl⟩

/-- C2: evaluating the code at the failing input.  With the module-global
`sequence = "AC"`, `reverse_complement("C")` returns `"GT"` (the reverse
complement of the global, not of the argument), and applying
`reverse_complement` again still returns `"GT"`, so the double application
yields `"GT" ≠ "C"` and the claimed involution fails on the code. -/
theorem reverse_complement_double_application_eval :
    reverse_complement ['A', 'C'] ['C'] = some ['G', 'T'] ∧
    reverse_complement ['A', 'C'] ['G', 'T'] = some ['G', 'T'] ∧
    (['G', 'T'] : List Char) ≠ ['C'] := by
  refine ⟨rfl, rfl, by decide⟩

/-- C1 counterexample: on the valid all-T window, feature slot 10 (the
`TT` slot of the Regression dinucleotide-occurrence block) equals 26, not
a binary 0/1 value: `di_content` counts occurrences rather than testing
presence. -/
theorem di_content_not_binary_counterexample :
    (get_features true wAllT)[10]? = some (26 : ℚ) ∧
    ¬((26 : ℚ) = 0 ∨ (26 : ℚ) = 1) := by
  constructor
  · decide
  · decide

/-- C1 amended: every slot of the dinucleotide-occurrence block (indices
5-10 for Regression over CA,CT,GC,TC,TG,TT; 5-20 for Classification over
AA..TT) equals the number of (possibly overlapping) start positions at
which that dinucleotide occurs in the window — 0 exactly when it is absent,
but possibly greater than 1 — not a 0/1 indicator. -/
theorem di_content_slots (seq : List Char) :
    (get_features true seq)[5]? = some (countDi seq ('C','A') : ℚ) ∧
    (get_features true seq)[6]? = some (countDi seq ('C','T') : ℚ) ∧
    (get_features true seq)[7]? = some (countDi seq ('G','C') : ℚ) ∧
    (get_features true seq)[8]? = some (countDi seq ('T','C') : ℚ) ∧
    (get_features true seq)[9]? = some (countDi seq ('T','G') : ℚ) ∧
    (get_features true seq)[10]? = some (countDi seq ('T','T') : ℚ) ∧
    (get_features false seq)[5]? = some (countDi seq ('A','A') : ℚ) ∧
    (get_features false seq)[6]? = some (countDi seq ('A','C') : ℚ) ∧
    (get_features false seq)[7]? = some (countDi seq ('A','G') : ℚ) ∧
    (get_features false seq)[8]? = some (countDi seq ('A','T') : ℚ) ∧
    (get_features false seq)[9]? = some (countDi seq ('C','A') : ℚ) ∧
    (get_features false seq)[10]? = some (countDi seq ('C','C') : ℚ) ∧
    (get_features false seq)[11]? = some (countDi seq ('C','G') : ℚ) ∧
    (get_features false seq)[12]? = some (countDi seq ('C','T') : ℚ) ∧
    (get_features false seq)[13]? = some (countDi seq ('G','A') : ℚ) ∧
    (get_features false seq)[14]? = some (countDi seq ('G','C') : ℚ) ∧
    (get_features false seq)[15]? = some (countDi seq ('G','G') : ℚ) ∧
    (get_features false seq)[16]? = some (countDi seq ('G','T') : ℚ) ∧
    (get_features false seq)[17]? = some (countDi seq ('T','A') : ℚ) ∧
    (get_features false seq)[18]? = some (countDi seq ('T','C') : ℚ) ∧
    (get_features false seq)[19]? = some (countDi seq ('T','G') : ℚ) ∧
    (get_features false seq)[20]? = some (countDi seq ('T','T') : ℚ) := by
  refine ⟨rfl, rfl, rfl, rfl, rfl, rfl, rfl, rfl, rfl, rfl, rfl,
    rfl, rfl, rfl, rfl, rfl, rfl, rfl, rfl, rfl, rfl, rfl⟩

/-- C4 counterexample: the fixed Regression reference table has 38
(dinucleotide, position) pairs, not 37 — consistently, the Regression
feature vector has 63 slots (5 + 6 + 13 + 38 + 1), which 37 pairs could
not fill. -/
theorem dinucleotide_table_size_counterexample :
    REGRESSION_DINUCLEOTIDES_OF_INTEREST.length = 38 ∧
    ¬(REGRESSION_DINUCLEOTIDES_OF_INTEREST.length = 37) ∧
    (get_features true wAllA).length = 63 := by
  refine ⟨rfl, by decide, by decide⟩

/-- C4 amended: the position-specific dinucleotide block has exactly 38
indicator slots for Regression (indices 24-61) and 13 for Classification
(indices 33-45), one per pair of the fixed reference table, and each slot
equals 1 exactly when `window[position-1:position+1]` equals that
dinucleotide, else 0. -/
theorem dinucleotide_position_block (seq : List Char) :
    REGRESSION_DINUCLEOTIDES_OF_INTEREST.length = 38 ∧
    CLASSIFICATION_DINUCLEOTIDES_OF_INTEREST.length = 13 ∧
    (∀ i : Fin REGRESSION_DINUCLEOTIDES_OF_INTEREST.length,
      (get_features true seq)[24 + i.val]? =
        some (if (seq.drop ((REGRESSION_DINUCLEOTIDES_OF_INTEREST.get i).location - 1)).take 2 =
            [(REGRESSION_DINUCLEOTIDES_OF_INTEREST.get i).dinucleotide.1,
             (REGRESSION_DINUCLEOTIDES_OF_INTEREST.get i).dinucleotide.2]
          then (1 : ℚ) else 0)) ∧
    (∀ i : Fin CLASSIFICATION_DINUCLEOTIDES_OF_INTEREST.length,
      (get_features false seq)[33 + i.val]? =
        some (if (seq.drop ((CLASSIFICATION_DINUCLEOTIDES_OF_INTEREST.get i).location - 1)).take 2 =
            [(CLASSIFICATION_DINUCLEOTIDES_OF_INTEREST.get i).dinucleotide.1,
             (CLASSIFICATION_DINUCLEOTIDES_OF_INTEREST.get i).dinucleotide.2]
          then (1 : ℚ) else 0)) := by
  refine ⟨rfl, rfl, fun i => ?_, fun i => ?_⟩
  · fin_cases i <;> rfl
  · fin_cases i <;> rfl

lemma count_wAllA :
    wAllA.count 'A' = 28 ∧ wAllA.count 'C' = 0 ∧
    wAllA.count 'G' = 2 ∧ wAllA.count 'T' = 0 := by decide

lemma gc_wAllA : gc wAllA = (667 : ℚ) / 100 := by
  unfold gc round2
  rw [count_wAllA.2.1, count_wAllA.2.2.1, (by decide : wAllA.length = 30)]
  rw [round_eq]
  norm_num

lemma gf_wAllA_0 : (get_features true wAllA)[0]? = some ((667 : ℚ) / 100) := by
  have h : (get_features true wAllA)[0]? = some (gc wAllA) := rfl
  rw [h, gc_wAllA]

lemma gf_wAllA_1 : (get_features true wAllA)[1]? = some (28 : ℚ) := by
  have h : (get_features true wAllA)[1]? = some ((wAllA.count 'A' : ℚ)) := rfl
  rw [h, count_wAllA.1]
  norm_num

lemma gf_wAllA_234 :
    (get_features true wAllA)[2]? = some (0 : ℚ) ∧
    (get_features true wAllA)[3]? = some (2 : ℚ) ∧
    (get_features true wAllA)[4]? = some (0 : ℚ) := by
  have h2 : (get_features true wAllA)[2]? = some ((wAllA.count 'C' : ℚ)) := rfl
  have h3 : (get_features true wAllA)[3]? = some ((wAllA.count 'G' : ℚ)) := rfl
  have h4 : (get_features true wAllA)[4]? = some ((wAllA.count 'T' : ℚ)) := rfl
  rw [h2, h3, h4, count_wAllA.2.1, count_wAllA.2.2.1, count_wAllA.2.2.2]
  norm_num

/-- C5 counterexample: on the all-A window (25 `A`s, `GG`, 3 `A`s), the
encoded GC feature is 6.67 — `round(100 * 2 / 30, 2)`, the window being 30
characters long — not the claimed 7.14 = `round(100 * 2 / 28, 2)`, and the
A count is 28, not 26. -/
theorem gc_denominator_counterexample :
    (get_features true wAllA)[0]? = some ((667 : ℚ) / 100) ∧
    (get_features true wAllA)[1]? = some (28 : ℚ) ∧
    ¬((667 : ℚ) / 100 = (714 : ℚ) / 100) ∧ ¬((28 : ℚ) = 26) := by
  refine ⟨gf_wAllA_0, gf_wAllA_1, by norm_num, by norm_num⟩

/-- C5 amended: for every candidate window (30 characters), index 0 of the
feature vector equals `round(100 * (count(C)+count(G)) / 30, 2)` and
indices 1-4 hold the raw counts of A, C, G, T over the full window; for the
all-A window with a single GG anchor the GC value is 6.67 and the counts
are A=28, C=0, G=2, T=0. -/
theorem gc_and_base_counts (is_regression : Bool) (seq : List Char)
    (h : seq.length = 30) :
    (get_features is_regression seq)[0]? =
      some (round2 (100 * ((seq.count 'C' : ℚ) + (seq.count 'G' : ℚ)) / 30)) ∧
    (get_features is_regression seq)[1]? = some (seq.count 'A' : ℚ) ∧
    (get_features is_regression seq)[2]? = some (seq.count 'C' : ℚ) ∧
    (get_features is_regression seq)[3]? = some (seq.count 'G' : ℚ) ∧
    (get_features is_regression seq)[4]? = some (seq.count 'T' : ℚ) ∧
    (get_features true wAllA)[0]? = some ((667 : ℚ) / 100) ∧
    (get_features true wAllA)[1]? = some (28 : ℚ) ∧
    (get_features true wAllA)[2]? = some (0 : ℚ) ∧
    (get_features true wAllA)[3]? = some (2 : ℚ) ∧
    (get_features true wAllA)[4]? = some (0 : ℚ) := by
  have hgc : gc seq = round2 (100 * ((seq.count 'C' : ℚ) + (seq.count 'G' : ℚ)) / 30) := by
    unfold gc
    rw [h]
    congr 1
    push_cast
    ring
  have h0 : (get_features is_regression seq)[0]? = some (gc seq) := by
    cases is_regression <;> rfl
  have h1234 : (get_features is_regression seq)[1]? = some (seq.count 'A' : ℚ) ∧
      (get_features is_regression seq)[2]? = some (seq.count 'C' : ℚ) ∧
      (get_features is_regression seq)[3]? = some (seq.count 'G' : ℚ) ∧
      (get_features is_regression seq)[4]? = some (seq.count 'T' : ℚ) := by
    cases is_regression <;> exact ⟨rfl, rfl, rfl, rfl⟩
  exact ⟨h0.trans (by rw [hgc]), h1234.1, h1234.2.1, h1234.2.2.1, h1234.2.2.2,
    gf_wAllA_0, gf_wAllA_1, gf_wAllA_234.1, gf_wAllA_234.2.1, gf_wAllA_234.2.2⟩

/-- C5 amended, witness at the all-A window. -/
theorem gc_and_base_counts_witness :
    (get_features true wAllA)[0]? =
      some (round2 (100 * ((wAllA.count 'C' : ℚ) + (wAllA.count 'G' : ℚ)) / 30)) :=
  (gc_and_base_counts true wAllA (by decide)).1

lemma matchAt_some {s : List Char} {i : ℕ} {w : List Char}
    (h : matchAt s i = some w) :
    w = (s.drop i).take 30 ∧ guideMatch w = true := by
  unfold matchAt at h
  by_cases hg : guideMatch ((s.drop i).take 30) = true
  · rw [if_pos hg] at h
    cases h
    exact ⟨rfl, hg⟩
  · rw [if_neg hg] at h
    cases h

lemma guideMatch_spec {w : List Char} (h : guideMatch w = true) :
    w.length = 30 ∧ (w.take 25).all isACTG = true ∧
    (w.drop 25).take 2 = ['G', 'G'] ∧ (w.drop 27).all isACTG = true := by
  simp only [guideMatch, Bool.and_eq_true, decide_eq_true_eq] at h
  exact ⟨h.1.1.1, h.1.1.2, h.1.2, h.2⟩

lemma matchAt_mem {s : List Char} {i : ℕ} {w : List Char}
    (h : matchAt s i = some w) : (i, w) ∈ guide_matches s := by
  unfold guide_matches
  apply List.mem_filterMap.mpr
  refine ⟨i, List.mem_range.mpr ?_, by rw [h]; rfl⟩
  obtain ⟨hw, hg⟩ := matchAt_some h
  have h30 := (guideMatch_spec hg).1
  rw [hw, List.length_take, List.length_drop] at h30
  omega

/-- C3 counterexample: the window matched on the minimal valid sequence is
30 characters long, not 28 — the pattern `[ACTG]{25}GG[ACTG]{3}` captures
25 + 2 + 3 = 30 characters. -/
theorem window_length_counterexample :
    guide_matches wAllA = [(0, wAllA)] ∧ wAllA.length = 30 ∧
    ¬(wAllA.length = 28) := by
  refine ⟨by decide, by decide, by decide⟩

/-- C3 amended: every candidate window produced by the motif scanner is
exactly 30 characters long — 25 characters from `{A,C,G,T}`, then `GG`,
then 3 characters from `{A,C,G,T}` — for every input sequence, hence on
both strand passes, which run the same scanner. -/
theorem window_structure (s : List Char) (i : ℕ) (w : List Char)
    (h : (i, w) ∈ guide_matches s) :
    w.length = 30 ∧ (w.take 25).all isACTG = true ∧
    (w.drop 25).take 2 = ['G', 'G'] ∧ (w.drop 27).length = 3 ∧
    (w.drop 27).all isACTG = true := by
  obtain ⟨j, hj, hmap⟩ := List.mem_filterMap.mp h
  cases hm : matchAt s j with
  | none => rw [hm] at hmap; cases hmap
  | some w' =>
    rw [hm] at hmap
    cases hmap
    obtain ⟨hw, hg⟩ := matchAt_some hm
    obtain ⟨h30, h25, hGG, h27⟩ := guideMatch_spec hg
    exact ⟨h30, h25, hGG, by rw [List.length_drop, h30], h27⟩

/-- C3 amended, witness at the minimal valid sequence. -/
theorem window_structure_witness :
    wAllA.length = 30 ∧ (wAllA.take 25).all isACTG = true ∧
    (wAllA.drop 25).take 2 = ['G', 'G'] ∧ (wAllA.drop 27).length = 3 ∧
    (wAllA.drop 27).all isACTG = true :=
  window_structure wAllA 0 wAllA (by decide)

/-- C9: the scanner reports every offset at which the pattern matches,
overlapping matches included — any two match offsets `i < j` are both in
the reported list — and the reported list is in strictly ascending offset
order, because the zero-width lookahead is attempted at every position and
consumes no text. -/
theorem overlapping_matches_reported (s : List Char) (i j : ℕ)
    (wi wj : List Char) (hij : i < j)
    (hi : matchAt s i = some wi) (hj : matchAt s j = some wj) :
    (i, wi) ∈ guide_matches s ∧ (j, wj) ∈ guide_matches s ∧
    List.Pairwise (fun a b => a.1 < b.1) (guide_matches s) := by
  refine ⟨matchAt_mem hi, matchAt_mem hj, ?_⟩
  unfold guide_matches
  rw [List.pairwise_filterMap]
  apply (List.pairwise_lt_range s.length).imp
  intro a b hab x hx y hy
  obtain ⟨wa, hwa, rfl⟩ := Option.map_eq_some'.mp hx
  obtain ⟨wb, hwb, rfl⟩ := Option.map_eq_some'.mp hy
  exact hab

/-- C9 witness: the adversarial overlap sequence has matches at offsets 0
and 5, both reported, in ascending order. -/
theorem overlapping_matches_witness :
    (0, wAllA) ∈ guide_matches sOverlap ∧ (5, wOv5) ∈ guide_matches sOverlap ∧
    List.Pairwise (fun a b => a.1 < b.1) (guide_matches sOverlap) :=
  overlapping_matches_reported sOverlap 0 5 wAllA wOv5 (by decide)
    (by decide) (by decide)

/-- C6: for every forward-strand match at offset `i` in a region whose
caller-supplied start is `start`, the reported record has
`Start = start + i + 5` (code: `start + match_start + 3 + 2`) and
`End = Start + 22` (code: `Start + 23 - 1`), with strand `'+'` on the
forward pass and `'-'` on the reverse pass; the record the worker buffers
for the match is exactly this one. -/
theorem forward_coordinates (cfg : ScoreConfig) (i : ℕ) (w : List Char) :
    (candidateMeta cfg false i w).startPos = cfg.start + i + 5 ∧
    (candidateMeta cfg false i w).endPos = (candidateMeta cfg false i w).startPos + 22 ∧
    (candidateMeta cfg false i w).strand = '+' ∧
    (candidateMeta cfg true i w).strand = '-' ∧
    worker_recv cfg false [] [] (some (i, w)) =
      (WStatus.running [w] [candidateMeta cfg false i w], [], []) := by
  refine ⟨?_, ?_, rfl, rfl, rfl⟩
  · show cfg.start + (i : ℤ) + 3 + 2 = cfg.start + i + 5
    ring
  · show cfg.start + (i : ℤ) + 3 + 2 + 23 - 1 = cfg.start + (i : ℤ) + 3 + 2 + 22
    ring

/-! ### Batching lemmas for the worker loop -/

lemma score_run_cons_small (cfg : ScoreConfig) (is_reverse : Bool)
    (ms : ℕ) (w : List Char) (rest : List QItem)
    (bufS : List (List Char)) (bufM : List Record)
    (h : bufS.length + 1 < 10000) :
    score_sequences_run cfg is_reverse (some (ms, w) :: rest) bufS bufM =
      score_sequences_run cfg is_reverse rest (bufS ++ [w])
        (bufM ++ [candidateMeta cfg is_reverse ms w]) := by
  have hlt : ¬((bufS ++ [w]).length ≥ 10000) := by
    simp only [List.length_append, List.length_cons, List.length_nil]
    omega
  simp only [score_sequences_run, worker_recv, if_neg hlt]
  cases hr : score_sequences_run cfg is_reverse rest (bufS ++ [w])
      (bufM ++ [candidateMeta cfg is_reverse ms w]) with
  | mk outs calls => simp

lemma score_run_cons_flush (cfg : ScoreConfig) (is_reverse : Bool)
    (ms : ℕ) (w : List Char) (rest : List QItem)
    (bufS : List (List Char)) (bufM : List Record)
    (h : bufS.length + 1 = 10000) :
    score_sequences_run cfg is_reverse (some (ms, w) :: rest) bufS bufM =
      ((output_sequences cfg (bufS ++ [w])
          (bufM ++ [candidateMeta cfg is_reverse ms w])).map some ++
        (score_sequences_run cfg is_reverse rest [] []).1,
       (bufS ++ [w]) :: (score_sequences_run cfg is_reverse rest [] []).2) := by
  have hge : (bufS ++ [w]).length ≥ 10000 := by
    simp only [List.length_append, List.length_cons, List.length_nil]
    omega
  simp only [score_sequences_run, worker_recv, if_pos hge]
  simp

lemma score_run_sentinel (cfg : ScoreConfig) (is_reverse : Bool)
    (rest : List QItem) (bufS : List (List Char)) (bufM : List Record) :
    score_sequences_run cfg is_reverse ((none : QItem) :: rest) bufS bufM =
      ((if bufS ≠ [] then (output_sequences cfg bufS bufM).map some else []) ++
         [(none : OutItem)],
       if bufS ≠ [] then [bufS] else []) := by
  simp only [score_sequences_run, worker_recv]

lemma score_run_fill (cfg : ScoreConfig) (is_reverse : Bool) :
    ∀ (cands : List (ℕ × List Char)) (rest : List QItem)
      (bufS : List (List Char)) (bufM : List Record),
      bufS.length + cands.length < 10000 →
      score_sequences_run cfg is_reverse (cands.map some ++ rest) bufS bufM =
        score_sequences_run cfg is_reverse rest (bufS ++ cands.map Prod.snd)
          (bufM ++ cands.map fun c => candidateMeta cfg is_reverse c.1 c.2) := by
  intro cands
  induction cands with
  | nil => intro rest bufS bufM _; simp
  | cons c cs ih =>
    intro rest bufS bufM h
    obtain ⟨ms, w⟩ := c
    rw [List.map_cons, List.cons_append,
      score_run_cons_small cfg is_reverse ms w _ bufS bufM
        (by simp at h; omega)]
    rw [ih rest (bufS ++ [w]) _ (by simp at h ⊢; omega)]
    simp

lemma score_run_flush_block (cfg : ScoreConfig) (is_reverse : Bool) :
    ∀ (cands : List (ℕ × List Char)) (rest : List QItem)
      (bufS : List (List Char)) (bufM : List Record),
      bufS.length + cands.length = 10000 → cands ≠ [] →
      score_sequences_run cfg is_reverse (cands.map some ++ rest) bufS bufM =
        ((output_sequences cfg (bufS ++ cands.map Prod.snd)
            (bufM ++ cands.map fun c => candidateMeta cfg is_reverse c.1 c.2)).map some ++
          (score_sequences_run cfg is_reverse rest [] []).1,
         (bufS ++ cands.map Prod.snd) ::
           (score_sequences_run cfg is_reverse rest [] []).2) := by
  intro cands
  induction cands with
  | nil => intro rest bufS bufM _ hne; exact absurd rfl hne
  | cons c cs ih =>
    intro rest bufS bufM h _
    obtain ⟨ms, w⟩ := c
    by_cases hcs : cs = []
    · subst hcs
      rw [List.map_cons, List.cons_append,
        score_run_cons_flush cfg is_reverse ms w _ bufS bufM (by simp at h; omega)]
      simp
    · rw [List.map_cons, List.cons_append,
        score_run_cons_small cfg is_reverse ms w _ bufS bufM
          (by simp at h; have := List.length_pos.mpr hcs; omega)]
      rw [ih rest (bufS ++ [w]) _ (by simp at h ⊢; omega) hcs]
      simp

/-- C7: a single worker fed a stream of 10,001 candidates followed by its
sentinel flushes exactly when the batch reaches 10,000 candidates and again
at the sentinel for the pending partial batch, invoking the model exactly
twice — once on the batch of 10,000, once on the batch of 1 — and each
score is attached to its originating candidate in per-batch input order
(`output_sequences` zips the batch metadata with the batch scores). -/
theorem batch_boundary (cfg : ScoreConfig) (is_reverse : Bool)
    (cands : List (ℕ × List Char)) (hlen : cands.length = 10001)
    (hp : ∀ xs, (cfg.predict xs).length = xs.length) :
    (score_sequences_run cfg is_reverse (fill_queue cands 1) [] []).2 =
      [(cands.take 10000).map Prod.snd, (cands.drop 10000).map Prod.snd] ∧
    (score_sequences_run cfg is_reverse (fill_queue cands 1) [] []).1 =
      (output_sequences cfg ((cands.take 10000).map Prod.snd)
        ((cands.take 10000).map fun c => candidateMeta cfg is_reverse c.1 c.2)).map some ++
      (output_sequences cfg ((cands.drop 10000).map Prod.snd)
        ((cands.drop 10000).map fun c => candidateMeta cfg is_reverse c.1 c.2)).map some ++
      [(none : OutItem)] ∧
    (output_sequences cfg ((cands.take 10000).map Prod.snd)
        ((cands.take 10000).map fun c => candidateMeta cfg is_reverse c.1 c.2)).length
      = 10000 ∧
    (output_sequences cfg ((cands.drop 10000).map Prod.snd)
        ((cands.drop 10000).map fun c => candidateMeta cfg is_reverse c.1 c.2)).length
      = 1 := by
  have htake : (cands.take 10000).length = 10000 := by
    simp [List.length_take, hlen]
  have hdrop : (cands.drop 10000).length = 1 := by
    simp [List.length_drop, hlen]
  have htne : cands.take 10000 ≠ [] := by
    intro hnil
    rw [hnil] at htake
    simp at htake
  have hdne : (cands.drop 10000).map Prod.snd ≠ [] := by
    intro hnil
    have h' := congrArg List.length hnil
    simp only [List.length_map, List.length_nil] at h'
    omega
  have hq : fill_queue cands 1 =
      (cands.take 10000).map some ++ ((cands.drop 10000).map some ++ [(none : QItem)]) := by
    rw [fill_queue]
    conv_lhs => rw [← List.take_append_drop 10000 cands]
    rw [List.map_append, List.append_assoc]
    rfl
  rw [hq, score_run_flush_block cfg is_reverse (cands.take 10000) _ [] []
    (by simp only [List.length_nil]; omega) htne]
  rw [score_run_fill cfg is_reverse (cands.drop 10000) _ [] []
    (by simp only [List.length_nil]; omega)]
  rw [score_run_sentinel]
  refine ⟨?_, ?_, ?_, ?_⟩
  · simp [hdne]
    omega
  · simp [hdne, List.append_assoc]
    intro h'
    exact absurd hlen (by omega)
  · simp [output_sequences, List.length_zip, hp, htake]
    omega
  · simp [output_sequences, List.length_zip, hp, hdrop]
    omega

/-- C7 witness: 10,001 copies of the all-A candidate through one worker
with a concrete model produce exactly two model invocations: the batch of
10,000 and then the batch of 1. -/
theorem batch_boundary_witness :
    (score_sequences_run cfg0 false
        (fill_queue (List.replicate 10001 ((0 : ℕ), wAllA)) 1) [] []).2 =
      [List.replicate 10000 wAllA, [wAllA]] := by
  have h := batch_boundary cfg0 false (List.replicate 10001 ((0 : ℕ), wAllA))
    (by rw [List.length_replicate]) (fun xs => by simp [cfg0, predict0])
  rw [h.1]
  rw [List.take_replicate, List.drop_replicate, List.map_replicate, List.map_replicate]
  norm_num

/-! ### Concurrency protocol: invariants, progress, termination measure -/

lemma countP_set_eq (p : WStatus → Bool) :
    ∀ (l : List WStatus) (k : ℕ) (w : WStatus) (hk : k < l.length),
      (l.set k w).countP p + (if p (l.get ⟨k, hk⟩) then 1 else 0) =
        l.countP p + (if p w then 1 else 0) := by
  intro l
  induction l with
  | nil => intro k w hk; simp at hk
  | cons a t ih =>
    intro k w hk
    cases k with
    | zero =>
      simp only [List.set_cons_zero, List.countP_cons, List.get]
      omega
    | succ k =>
      have hk' : k < t.length := by simpa using hk
      have := ih k w hk'
      simp only [List.set_cons_succ, List.countP_cons, List.get]
      omega

lemma sum_map_set_eq (f : WStatus → ℕ) :
    ∀ (l : List WStatus) (k : ℕ) (w : WStatus) (hk : k < l.length),
      ((l.set k w).map f).sum + f (l.get ⟨k, hk⟩) = (l.map f).sum + f w := by
  intro l
  induction l with
  | nil => intro k w hk; simp at hk
  | cons a t ih =>
    intro k w hk
    cases k with
    | zero =>
      simp only [List.set_cons_zero, List.map_cons, List.sum_cons, List.get]
      omega
    | succ k =>
      have hk' : k < t.length := by simpa using hk
      have := ih k w hk'
      simp only [List.set_cons_succ, List.map_cons, List.sum_cons, List.get]
      omega

lemma markers_map_some (l : List (Record × ℚ)) : markers (l.map some) = 0 := by
  unfold markers
  rw [List.countP_map]
  exact List.countP_eq_zero.mpr fun a _ => by simp

lemma countP_replicate_eq {α : Type} (p : α → Bool) (n : ℕ) (a : α) :
    (List.replicate n a).countP p = if p a then n else 0 := by
  induction n with
  | zero => simp
  | succ n ih =>
    rw [List.replicate_succ, List.countP_cons, ih]
    by_cases h : p a <;> simp [h]

lemma output_sequences_length_le (cfg : ScoreConfig)
    (sequences : List (List Char)) (metadata : List Record) :
    (output_sequences cfg sequences metadata).length ≤ metadata.length := by
  unfold output_sequences
  rw [List.length_zip]
  omega

/-- Every scheduling step has one of the three shapes: a producer `put`, a
worker `get` plus loop body, or a collector `get`. -/
lemma step_cases {cfg : ScoreConfig} {is_reverse : Bool} {st st' : PassState}
    (h : Step cfg is_reverse st st') :
    (∃ item rest, st.prod = item :: rest ∧
      st.queue.length < st.workers.length * 2 ∧
      st' = { st with prod := rest, queue := st.queue ++ [item] }) ∨
    (∃ k s m item qrest, k < st.workers.length ∧
      st.workers[k]? = some (WStatus.running s m) ∧ st.queue = item :: qrest ∧
      st' = { st with queue := qrest,
                      workers := st.workers.set k (worker_recv cfg is_reverse s m item).1,
                      outQ := st.outQ ++ (worker_recv cfg is_reverse s m item).2.1 }) ∨
    (∃ o orest, st.num_done < st.workers.length ∧ st.outQ = o :: orest ∧
      st' = { st with outQ := orest,
                      num_done := st.num_done + (if o = (none : OutItem) then 1 else 0) }) := by
  unfold Step nextStates at h
  rw [List.mem_append, List.mem_append] at h
  rcases h with (h | h) | h
  · left
    cases hp : st.prod with
    | nil => rw [hp] at h; cases h
    | cons item rest =>
      rw [hp] at h
      dsimp only at h
      by_cases hc : st.queue.length < st.workers.length * 2
      · rw [if_pos hc] at h
        rcases List.mem_singleton.mp h with rfl
        exact ⟨item, rest, rfl, hc, rfl⟩
      · rw [if_neg hc] at h; cases h
  · right; left
    obtain ⟨k, hk, heq⟩ := List.mem_filterMap.mp h
    have hklt := List.mem_range.mp hk
    cases hw : st.workers[k]? with
    | none => rw [hw] at heq; cases heq
    | some ws =>
      cases ws with
      | done => rw [hw] at heq; cases heq
      | running s m =>
        cases hq : st.queue with
        | nil => rw [hw, hq] at heq; cases heq
        | cons item qrest =>
          rw [hw, hq] at heq
          cases heq
          exact ⟨k, s, m, item, qrest, hklt, hw, rfl, rfl⟩
  · right; right
    by_cases hc : st.num_done < st.workers.length
    · rw [if_pos hc] at h
      cases hq : st.outQ with
      | nil => rw [hq] at h; cases h
      | cons o orest =>
        rw [hq] at h
        dsimp only at h
        rcases List.mem_singleton.mp h with rfl
        exact ⟨o, orest, hc, rfl, rfl⟩
    · rw [if_neg hc] at h; cases h

lemma getElem_of_getElem? {l : List WStatus} {k : ℕ} {w : WStatus}
    (h : l[k]? = some w) (hk : k < l.length) : l.get ⟨k, hk⟩ = w := by
  rw [List.getElem?_eq_getElem hk] at h
  exact Option.some.inj h

lemma inv_init (matchList : List (ℕ × List Char)) (N : ℕ) :
    PassInv N (initPass matchList N) := by
  refine ⟨by simp [initPass], ?_, ?_⟩
  · show sentinels (fill_queue matchList N) + sentinels [] +
      doneCount (List.replicate N (WStatus.running [] [])) = N
    unfold sentinels doneCount fill_queue
    rw [List.countP_append, List.countP_map, countP_replicate_eq, countP_replicate_eq]
    simp [Function.comp]
  · show markers [] + 0 = doneCount (List.replicate N (WStatus.running [] []))
    unfold markers doneCount
    rw [countP_replicate_eq]
    simp

lemma worker_recv_none (cfg : ScoreConfig) (is_reverse : Bool)
    (s : List (List Char)) (m : List Record) :
    worker_recv cfg is_reverse s m none =
      (WStatus.done,
       (if s ≠ [] then (output_sequences cfg s m).map some else []) ++ [(none : OutItem)],
       if s ≠ [] then [s] else []) := rfl

lemma worker_recv_some_flush (cfg : ScoreConfig) (is_reverse : Bool)
    (s : List (List Char)) (m : List Record) (ms : ℕ) (w : List Char)
    (h : (s ++ [w]).length ≥ 10000) :
    worker_recv cfg is_reverse s m (some (ms, w)) =
      (WStatus.running [] [],
       (output_sequences cfg (s ++ [w]) (m ++ [candidateMeta cfg is_reverse ms w])).map some,
       [s ++ [w]]) := by
  simp only [worker_recv, if_pos h]

lemma worker_recv_some_small (cfg : ScoreConfig) (is_reverse : Bool)
    (s : List (List Char)) (m : List Record) (ms : ℕ) (w : List Char)
    (h : ¬((s ++ [w]).length ≥ 10000)) :
    worker_recv cfg is_reverse s m (some (ms, w)) =
      (WStatus.running (s ++ [w]) (m ++ [candidateMeta cfg is_reverse ms w]), [], []) := by
  simp only [worker_recv, if_neg h]

lemma inv_preserved {N : ℕ} {cfg : ScoreConfig} {is_reverse : Bool}
    {st st' : PassState} (hinv : PassInv N st) (h : Step cfg is_reverse st st') :
    PassInv N st' := by
  obtain ⟨h1, h2, h3⟩ := hinv
  rcases step_cases h with ⟨item, rest, hp, _, rfl⟩ |
    ⟨k, s, m, item, qrest, hklt, hw, hq, rfl⟩ | ⟨o, orest, hc, hq, rfl⟩
  · refine ⟨h1, ?_, h3⟩
    rw [hp] at h2
    unfold sentinels at h2 ⊢
    rw [List.countP_append] at *
    simp only [List.countP_cons, List.countP_nil] at *
    omega
  · have hget := getElem_of_getElem? hw hklt
    have hcount := countP_set_eq (fun w => decide (w = WStatus.done)) st.workers k
      (worker_recv cfg is_reverse s m item).1 hklt
    rw [hget] at hcount
    rw [hq] at h2
    refine ⟨by simpa using h1, ?_, ?_⟩
    · show sentinels st.prod + sentinels qrest +
        doneCount (st.workers.set k (worker_recv cfg is_reverse s m item).1) = N
      unfold sentinels doneCount at *
      rw [List.countP_cons] at h2
      cases item with
      | none =>
        rw [worker_recv_none] at hcount ⊢
        simp only [decide_True, decide_False, if_true, if_false] at hcount h2 ⊢
        simp at hcount h2
        omega
      | some c =>
        obtain ⟨ms, w⟩ := c
        by_cases hfl : (s ++ [w]).length ≥ 10000
        · rw [worker_recv_some_flush cfg is_reverse s m ms w hfl] at hcount ⊢
          dsimp only
          simp at hcount h2
          omega
        · rw [worker_recv_some_small cfg is_reverse s m ms w hfl] at hcount ⊢
          dsimp only
          simp at hcount h2
          omega
    · show markers (st.outQ ++ (worker_recv cfg is_reverse s m item).2.1) +
        st.num_done =
        doneCount (st.workers.set k (worker_recv cfg is_reverse s m item).1)
      unfold markers doneCount at *
      rw [List.countP_append]
      cases item with
      | none =>
        rw [worker_recv_none] at hcount ⊢
        have hzero := markers_map_some (output_sequences cfg s m)
        unfold markers at hzero
        by_cases hs : s ≠ []
        · simp only [if_pos hs] at hcount ⊢
          simp at hcount
          rw [List.countP_append]
          simp only [List.countP_cons, List.countP_nil, hzero]
          simp
          omega
        · simp only [if_neg hs] at hcount ⊢
          simp at hcount
          simp only [List.nil_append, List.countP_cons, List.countP_nil]
          simp
          omega
      | some c =>
        obtain ⟨ms, w⟩ := c
        by_cases hfl : (s ++ [w]).length ≥ 10000
        · rw [worker_recv_some_flush cfg is_reverse s m ms w hfl] at hcount ⊢
          have hzero := markers_map_some (output_sequences cfg (s ++ [w])
            (m ++ [candidateMeta cfg is_reverse ms w]))
          unfold markers at hzero
          simp only [hzero]
          simp at hcount
          omega
        · rw [worker_recv_some_small cfg is_reverse s m ms w hfl] at hcount ⊢
          simp at hcount
          simp only [List.countP_nil]
          omega
  · refine ⟨h1, h2, ?_⟩
    dsimp only
    rw [hq] at h3
    unfold markers at h3 ⊢
    rw [List.countP_cons] at h3
    by_cases ho : o = (none : OutItem)
    · subst ho
      rw [if_pos rfl]
      simp only [decide_True, if_true] at h3
      omega
    · rw [if_neg ho]
      simp [ho] at h3
      omega

lemma measure_decr {cfg : ScoreConfig} {is_reverse : Bool} {st st' : PassState}
    (h : Step cfg is_reverse st st') : measureP st' < measureP st := by
  rcases step_cases h with ⟨item, rest, hp, _, rfl⟩ |
    ⟨k, s, m, item, qrest, hklt, hw, hq, rfl⟩ | ⟨o, orest, hc, hq, rfl⟩
  · unfold measureP
    dsimp only
    rw [hp]
    simp only [List.length_cons, List.length_append, List.length_nil]
    omega
  · have hget := getElem_of_getElem? hw hklt
    have hsum := sum_map_set_eq bufLen st.workers k
      (worker_recv cfg is_reverse s m item).1 hklt
    rw [hget] at hsum
    unfold measureP
    dsimp only
    rw [hq]
    simp only [List.length_cons, List.length_append]
    cases item with
    | none =>
      rw [worker_recv_none] at hsum ⊢
      dsimp only at hsum ⊢
      have hle := output_sequences_length_le cfg s m
      by_cases hs : s ≠ []
      · simp only [if_pos hs] at hsum ⊢
        simp only [bufLen, List.length_nil] at hsum
        simp only [List.length_append, List.length_map, List.length_cons,
          List.length_nil]
        omega
      · simp only [if_neg hs] at hsum ⊢
        simp only [bufLen, List.length_nil] at hsum
        simp only [List.nil_append, List.length_cons, List.length_nil]
        omega
    | some c =>
      obtain ⟨ms, w⟩ := c
      by_cases hfl : (s ++ [w]).length ≥ 10000
      · rw [worker_recv_some_flush cfg is_reverse s m ms w hfl] at hsum ⊢
        dsimp only at hsum ⊢
        have hle := output_sequences_length_le cfg (s ++ [w])
          (m ++ [candidateMeta cfg is_reverse ms w])
        simp only [bufLen, List.length_nil] at hsum
        simp only [List.length_append, List.length_map, List.length_cons,
          List.length_nil] at hle ⊢
        omega
      · rw [worker_recv_some_small cfg is_reverse s m ms w hfl] at hsum ⊢
        dsimp only at hsum ⊢
        simp only [bufLen, List.length_append, List.length_cons,
          List.length_nil, List.append_nil] at hsum ⊢
        omega
  · unfold measureP
    dsimp only
    rw [hq]
    simp only [List.length_cons]
    omega

lemma progress {N : ℕ} {cfg : ScoreConfig} {is_reverse : Bool} {st : PassState}
    (hN : 1 ≤ N) (hinv : PassInv N st) (hlt : st.num_done < N) :
    nextStates cfg is_reverse st ≠ [] := by
  obtain ⟨h1, h2, h3⟩ := hinv
  intro hempty
  unfold nextStates at hempty
  obtain ⟨hAB, hC⟩ := List.append_eq_nil.mp hempty
  obtain ⟨hA, hB⟩ := List.append_eq_nil.mp hAB
  have hcoll : st.num_done < st.workers.length := by omega
  rw [if_pos hcoll] at hC
  have houtQ : st.outQ = [] := by
    cases hq : st.outQ with
    | nil => rfl
    | cons o orest => rw [hq] at hC; cases hC
  have hallnone := List.filterMap_eq_nil_iff.mp hB
  cases hqueue : st.queue with
  | cons item qrest =>
    have hdone : ∀ w ∈ st.workers, w = WStatus.done := by
      intro w hwmem
      obtain ⟨k, hk⟩ := List.mem_iff_getElem?.mp hwmem
      have hklt : k < st.workers.length := (List.getElem?_eq_some.mp hk).1
      have hnone := hallnone k (List.mem_range.mpr hklt)
      rw [hk, hqueue] at hnone
      cases w with
      | done => rfl
      | running s m => dsimp only at hnone; cases hnone
    have hcnt : doneCount st.workers = st.workers.length := by
      unfold doneCount
      exact List.countP_eq_length.mpr fun w hw => by rw [hdone w hw]; rfl
    rw [houtQ] at h3
    unfold markers at h3
    simp only [List.countP_nil] at h3
    omega
  | nil =>
    cases hprod : st.prod with
    | cons item rest =>
      rw [hprod] at hA
      dsimp only at hA
      have hcap : st.queue.length < st.workers.length * 2 := by
        rw [hqueue]
        simp only [List.length_nil]
        omega
      rw [if_pos hcap] at hA
      cases hA
    | nil =>
      rw [hprod, hqueue] at h2
      unfold sentinels at h2
      simp only [List.countP_nil] at h2
      rw [houtQ] at h3
      unfold markers at h3
      simp only [List.countP_nil] at h3
      omega

/-- C8: in every strand pass with `N ≥ 1` workers and any finite candidate
stream, the producer enqueues exactly one sentinel per worker after all
matches (`fill_queue`); each worker, on receiving a sentinel, flushes any
pending partial batch, emits exactly one done marker, and exits
(`worker_recv`); and under any schedule (`Step` interleaving, with stuck
states repeating) the collector's count never exceeds `N` and eventually
reaches exactly `N`, so the pass reaches DONE. -/
theorem pass_termination (cfg : ScoreConfig) (is_reverse : Bool)
    (matchList : List (ℕ × List Char)) (N : ℕ) (hN : 1 ≤ N)
    (f : ℕ → PassState) (h0 : f 0 = initPass matchList N)
    (hrun : ∀ n, Step cfg is_reverse (f n) (f (n + 1)) ∨
      (nextStates cfg is_reverse (f n) = [] ∧ f (n + 1) = f n)) :
    fill_queue matchList N = matchList.map some ++ List.replicate N (none : QItem) ∧
    sentinels (fill_queue matchList N) = N ∧
    (∀ s m, worker_recv cfg is_reverse s m none =
      (WStatus.done,
       (if s ≠ [] then (output_sequences cfg s m).map some else []) ++ [(none : OutItem)],
       if s ≠ [] then [s] else [])) ∧
    (∀ n, (f n).num_done ≤ N) ∧
    (∃ n, (f n).num_done = N) := by
  have hInv : ∀ n, PassInv N (f n) := by
    intro n
    induction n with
    | zero => rw [h0]; exact inv_init matchList N
    | succ n ih =>
      rcases hrun n with hstep | ⟨_, heq⟩
      · exact inv_preserved ih hstep
      · rw [heq]; exact ih
  have hle : ∀ n, (f n).num_done ≤ N := by
    intro n
    obtain ⟨h1, _, h3⟩ := hInv n
    have hcle : doneCount (f n).workers ≤ (f n).workers.length := by
      unfold doneCount
      exact List.countP_le_length _
    omega
  refine ⟨rfl, ?_, fun s m => rfl, hle, ?_⟩
  · unfold sentinels fill_queue
    rw [List.countP_append, List.countP_map, countP_replicate_eq]
    simp [Function.comp]
  · by_contra hno
    push_neg at hno
    have hlt : ∀ n, (f n).num_done < N := fun n => lt_of_le_of_ne (hle n) (hno n)
    have hstep : ∀ n, Step cfg is_reverse (f n) (f (n + 1)) := by
      intro n
      rcases hrun n with h | ⟨hstuck, _⟩
      · exact h
      · exact absurd hstuck (progress hN (hInv n) (hlt n))
    have hbound : ∀ n, measureP (f n) + n ≤ measureP (f 0) := by
      intro n
      induction n with
      | zero => omega
      | succ n ih =>
        have := measure_decr (hstep n)
        omega
    have := hbound (measureP (f 0) + 1)
    omega

/-- C8 witness: the concrete one-worker pass over the empty candidate
stream reaches DONE under the concrete schedule `c8Trace`. -/
theorem pass_termination_witness : ∃ n, (c8Trace n).num_done = 1 := by
  refine (pass_termination cfg0 false [] 1 (by omega) c8Trace rfl ?_).2.2.2.2
  intro n
  match n with
  | 0 => exact Or.inl (by decide)
  | 1 => exact Or.inl (by decide)
  | 2 => exact Or.inl (by decide)
  | (n + 3) =>
    have hstuck : nextStates cfg0 false
        (⟨[], [], [WStatus.done], [], 1⟩ : PassState) = [] := by decide
    exact Or.inr ⟨hstuck, rfl⟩

end Tuscan
